import Mathlib

/-!
# Verification of the pwncheck breach-checking engine

Shallow embedding of the core of `src/pwncheck.js` (the richer ESM variant;
`src/check-pwned-passwords.js` is the same engine minus line numbers and CSV
export): SHA-1-prefix lookup against a remote range service, a run-scoped
cache keyed on the 5-character hash prefix, the sequential batch loop with
rate-limit delays, and the CSV exporter.

Strings are modelled as Lean `String` (a wrapper around `List Char`); the
JavaScript string operations used by the source (`split`, `trim`, `substring`,
`parseInt`) are embedded as structurally recursive functions with the same
semantics.  The SHA-1 digest itself is an external library call in the source
(`crypto.createHash`), so the digest function is a parameter of the model;
every claim only depends on the prefix/suffix structure of digests.  The
remote HTTPS service is modelled as an oracle from prefixes to outcomes
(a response body, or a transport error firing the `error` event).  JavaScript
numbers coming out of `parseInt` are modelled as `Option Int`, `none` playing
the role of `NaN`.
-/

namespace PwnCheck

/-- JS `s.substring(0, n)` (here `n ≤ s.length` always): first `n` chars. -/
def strTake (s : String) (n : Nat) : String := ⟨s.data.take n⟩

/-- JS `s.substring(n)`: all but the first `n` chars. -/
def strDrop (s : String) (n : Nat) : String := ⟨s.data.drop n⟩

/-- JS whitespace test for the characters relevant to `trim` here. -/
def isWs (c : Char) : Bool := c = ' ' || c = '\t' || c = '\n' || c = '\r'

/-- JS `s.trim()` on a character list: strip whitespace from both ends. -/
def jsTrimList (l : List Char) : List Char :=
  ((l.dropWhile isWs).reverse.dropWhile isWs).reverse

/-- JS `s.trim()`. -/
def jsTrim (s : String) : String := ⟨jsTrimList s.data⟩

/-- Prepend a char to the first piece of a split result (empty result never
occurs, but totality requires the case). -/
def consHead (c : Char) : List (List Char) → List (List Char)
  | [] => [[c]]
  | h :: t => (c :: h) :: t

/-- JS `s.split(sep)` for a single-character separator (used with `':'`). -/
def splitChar (sep : Char) : List Char → List (List Char)
  | [] => [[]]
  | c :: cs =>
    if c = sep then [] :: splitChar sep cs
    else consHead c (splitChar sep cs)

/-- JS `s.split("\r\n")`: split on the two-character CRLF separator,
scanning left to right. -/
def splitCRLF : List Char → List (List Char)
  | [] => [[]]
  | [c] => [[c]]
  | c :: d :: cs =>
    if c = '\r' && d = '\n' then [] :: splitCRLF cs
    else consHead c (splitCRLF (d :: cs))

/-- Decimal value of a digit run (most significant first). -/
def digitsVal (acc : Nat) : List Char → Nat
  | [] => acc
  | c :: cs => digitsVal (acc * 10 + (c.toNat - '0'.toNat)) cs

/-- JS `parseInt(s, 10)`: skip leading whitespace, optional sign, then the
longest run of leading decimal digits; `NaN` (here `none`) if there is none. -/
def jsParseIntList (l : List Char) : Option Int :=
  let t := l.dropWhile isWs
  let signRest : Int × List Char :=
    match t with
    | '-' :: r => (-1, r)
    | '+' :: r => (1, r)
    | r => (1, r)
  let ds := signRest.2.takeWhile Char.isDigit
  if ds.isEmpty then none else some (signRest.1 * (digitsVal 0 ds : Nat))

/-- One parsed line of a range response: `{ suffix: ..., count: ... }`
(`count = none` models a `NaN` from `parseInt`). -/
structure SuffixEntry where
  sfx : String
  count : Option Int
deriving DecidableEq

/-- `line.split(':')` destructured as `[suffix, count]`, with
`{ suffix: suffix.trim(), count: parseInt(count, 10) }`
(src/pwncheck.js lines 71-74).  A line with no `:` leaves the count part
`undefined`, and `parseInt(undefined, 10)` is `NaN`. -/
def parseLine (line : List Char) : SuffixEntry :=
  let parts := splitChar ':' line
  { sfx := ⟨jsTrimList (parts.headD [])⟩
    count :=
      match parts with
      | _ :: c :: _ => jsParseIntList c
      | _ => none }

/-- `data.split('\r\n').filter(line => line.trim()).map(...)`
(src/pwncheck.js lines 68-74): split the body on CRLF, drop blank (padding)
lines, parse the rest. -/
def parseResponse (data : String) : List SuffixEntry :=
  ((splitCRLF data.data).filter (fun l => !(jsTrimList l).isEmpty)).map parseLine

/-- `HASH_PREFIX_LENGTH` (src/pwncheck.js line 10). -/
def hashPfxLength : Nat := 5

/-- `API_RATE_LIMIT_DELAY_MS` (src/pwncheck.js line 9). -/
def API_RATE_LIMIT_DELAY_MS : Nat := 100

/-- The run-scoped `hashCache` `Map`, as an insertion-ordered association
list from hash-prefix to parsed entries. -/
abbrev Cache := List (String × List SuffixEntry)

/-- JS `hashCache.has(p)`. -/
def cacheHas (c : Cache) (p : String) : Bool := c.any (fun kv => kv.1 = p)

/-- JS `hashCache.get(p)` (callers only use it under `has`). -/
def cacheGet (c : Cache) (p : String) : List SuffixEntry :=
  match c.find? (fun kv => kv.1 = p) with
  | some kv => kv.2
  | none => []

/-- JS `hashCache.set(p, v)`: overwrite in place if present, else append
(JS `Map` preserves insertion order). -/
def cacheSet (c : Cache) (p : String) (v : List SuffixEntry) : Cache :=
  if cacheHas c p then c.map (fun kv => if kv.1 = p then (p, v) else kv)
  else c ++ [(p, v)]

/-- Outcome of one interaction with the remote service for one hash prefix:
either the full response body (the `end` event; note the source never checks
the HTTP status code) or a transport-level failure (the `error` event). -/
inductive RemoteOutcome where
  | success (body : String)
  | failure (msg : String)

/-- The remote service, as a function from the queried prefix to an outcome. -/
abbrev Oracle := String → RemoteOutcome

/-- Settled state of the promise returned by `checkPassword`. -/
inductive LookupResult where
  | resolved (count : Option Int)
  | rejected (msg : String)
deriving DecidableEq

/-- `resolved` test. -/
def LookupResult.isResolved : LookupResult → Bool
  | .resolved _ => true
  | .rejected _ => false

/-- Result of one `checkPassword` call: the settled promise, the cache after
the call, and the list of prefixes for which a remote request was issued
during the call. -/
structure LookupOutcome where
  result : LookupResult
  cache : Cache
  remoteCalls : List String
deriving DecidableEq

/-- `const match = entries.find(e => e.suffix === suffix); match ? match.count : 0`
(src/pwncheck.js lines 42-43 and 79-80). -/
def lookupCount (entries : List SuffixEntry) (sfx : String) : Option Int :=
  match entries.find? (fun e => e.sfx = sfx) with
  | some m => m.count
  | none => some 0

/-- `checkPassword` (src/pwncheck.js lines 34-87), with the digest function
(`sha1`) and remote service as parameters.  Cached branch: find the exact
suffix in the cached set, resolving its count or `0`.  Uncached branch: issue
the remote request; on the `error` event reject without touching the cache;
on `end` parse the body, store it under the prefix, and resolve the exact
match's count or `0`. -/
def checkPassword (digest : String → String) (oracle : Oracle) (cache : Cache)
    (password : String) : LookupOutcome :=
  let hash := digest password
  let pfx := strTake hash hashPfxLength
  let sfx := strDrop hash hashPfxLength
  if cacheHas cache pfx then
    ⟨.resolved (lookupCount (cacheGet cache pfx) sfx), cache, []⟩
  else
    match oracle pfx with
    | .failure msg => ⟨.rejected msg, cache, [pfx]⟩
    | .success data =>
      let entries := parseResponse data
      let cache1 := cacheSet cache pfx entries
      ⟨.resolved (lookupCount entries sfx), cache1, [pfx]⟩

/-- The outbound HTTPS request, with every field that leaves the process
(src/pwncheck.js lines 48-56; a GET request carries no body). -/
structure HttpRequest where
  hostname : String
  path : String
  method : String
  headers : List (String × String)
  body : String
deriving DecidableEq

/-- The `options` object passed to `https.get`, built from the prefix alone. -/
def buildRequest (pfx : String) : HttpRequest :=
  { hostname := ("api.pwnedpasswords.com")
    path := ("/range/") ++ pfx
    method := ("GET")
    headers := [(("User-Agent"), ("Password-Checker-Script")),
                (("Add-Padding"), ("true"))]
    body := ("") }

/-- The request issued for a given password: `buildRequest` applied to the
first 5 characters of the password's digest. -/
def requestFor (digest : String → String) (password : String) : HttpRequest :=
  buildRequest (strTake (digest password) hashPfxLength)

/-- Every string that occurs anywhere in an outbound request. -/
def requestStrings (r : HttpRequest) : List String :=
  [r.hostname, r.path, r.method, r.body] ++
    r.headers.flatMap (fun kv => [kv.1, kv.2])

/-- `needle` occurs contiguously inside `haystack`. -/
def occursIn (needle haystack : List Char) : Prop :=
  ∃ l r, haystack = l ++ needle ++ r

/-- JS truthiness-flavoured comparisons on a possibly-`NaN` number:
`x > 0` (`NaN > 0` is false). -/
def jsGtZero : Option Int → Bool
  | some n => decide (0 < n)
  | none => false

/-- `x >= 0` (`NaN >= 0` is false). -/
def jsGeZero : Option Int → Bool
  | some n => decide (0 ≤ n)
  | none => false

/-- JS `String(x)` on a possibly-`NaN` number. -/
def jsNumToString : Option Int → String
  | some n => toString n
  | none => ("NaN")

/-- One entry handed to the batch loop by the (external) input parser. -/
structure PasswordEntry where
  password : String
  originalLineNumber : Nat
deriving DecidableEq

/-- One element of `results` (src/pwncheck.js lines 275-281 and 294-299);
`count = some (-1)` is the failure sentinel pushed by the `catch` block.
The rendered `status` string is presentation, not modelled. -/
structure ResultRecord where
  password : String
  count : Option Int
  originalLineNumber : Nat
deriving DecidableEq

/-- Observable actions of the batch loop, in order: a remote query for a
prefix, or a rate-limit sleep. -/
inductive BatchEvent where
  | remoteCall (pfx : String)
  | delayMs (ms : Nat)
deriving DecidableEq

/-- State threaded through the `for` loop of `main`
(src/pwncheck.js lines 247-301), plus the event trace. -/
structure BatchState where
  cache : Cache
  results : List ResultRecord
  checkedCount : Nat
  cachedCount : Nat
  pwnedCount : Nat
  events : List BatchEvent
deriving DecidableEq

/-- The state at `main` entry: empty `hashCache`, empty `results`,
zeroed counters. -/
def initialState : BatchState := ⟨[], [], 0, 0, 0, []⟩

/-- One iteration of the batch loop (src/pwncheck.js lines 252-301):
compute the prefix, record `wasCached` before the lookup, run
`checkPassword`; on resolution bump `checkedCount` and sleep (new query) or
bump `cachedCount` (hit), push the record, and bump `pwnedCount` when
`count > 0`; on rejection push the sentinel record and continue — the
`catch` block skips the delay and both counters. -/
def processEntry (digest : String → String) (oracle : Oracle)
    (s : BatchState) (e : PasswordEntry) : BatchState :=
  let hash := digest e.password
  let pfx := strTake hash hashPfxLength
  let wasCached := cacheHas s.cache pfx
  let out := checkPassword digest oracle s.cache e.password
  match out.result with
  | .resolved count =>
    let s1 : BatchState :=
      if wasCached then
        { s with cache := out.cache
                 cachedCount := s.cachedCount + 1
                 events := s.events ++ out.remoteCalls.map BatchEvent.remoteCall }
      else
        { s with cache := out.cache
                 checkedCount := s.checkedCount + 1
                 events := s.events ++ out.remoteCalls.map BatchEvent.remoteCall
                            ++ [BatchEvent.delayMs API_RATE_LIMIT_DELAY_MS] }
    { s1 with results := s1.results ++ [⟨e.password, count, e.originalLineNumber⟩]
              pwnedCount := s1.pwnedCount + (if jsGtZero count then 1 else 0) }
  | .rejected _ =>
    { s with cache := out.cache
             events := s.events ++ out.remoteCalls.map BatchEvent.remoteCall
             results := s.results ++ [⟨e.password, some (-1), e.originalLineNumber⟩] }

/-- The whole batch loop over an ordered entry sequence. -/
def runBatch (digest : String → String) (oracle : Oracle)
    (s : BatchState) (entries : List PasswordEntry) : BatchState :=
  entries.foldl (processEntry digest oracle) s

/-- `escapeCsv`'s quote-doubling, `str.replace(/"/g, '""')`. -/
def doubleQuotes : List Char → List Char
  | [] => []
  | c :: cs => if c = '"' then '"' :: '"' :: doubleQuotes cs else c :: doubleQuotes cs

/-- The regex test `/[",\n\r]/` on one character. -/
def isCsvSpecial (c : Char) : Bool :=
  c = '"' || c = ',' || c = '\n' || c = '\r'

/-- `escapeCsv` (src/pwncheck.js lines 162-169) on an already-stringified
value: wrap in double quotes, doubling internal quotes, exactly when the
string contains a comma, quote, or line break. -/
def escapeCsv (s : String) : String :=
  if s.data.any isCsvSpecial then ("\"") ++ ⟨doubleQuotes s.data⟩ ++ ("\"") else s

/-- CSV header row (src/pwncheck.js lines 331-332). -/
def csvHeader (includePasswords : Bool) : List String :=
  [("line_number"), ("pwned_count")] ++ (if includePasswords then [("password")] else [])

/-- One raw export row before escaping (src/pwncheck.js lines 337-341):
`[result.originalLineNumber, result.count >= 0 ? result.count : '']`, plus,
when `includePasswords`, `result.count > 0 ? result.password || '' : ''`. -/
def exportRow (includePasswords : Bool) (r : ResultRecord) : List String :=
  [toString r.originalLineNumber,
   if jsGeZero r.count then jsNumToString r.count else ("")] ++
    (if includePasswords then
      [if jsGtZero r.count then (if r.password = ("") then ("") else r.password) else ("")]
     else [])

/-- JS `row.join(',')`. -/
def joinComma (row : List String) : String := String.intercalate (",") row

/-- The lines of the CSV export (src/pwncheck.js lines 334-343): the joined
header, then each row with every field passed through `escapeCsv`. -/
def exportCsvLines (includePasswords : Bool) (results : List ResultRecord) :
    List String :=
  joinComma (csvHeader includePasswords) ::
    results.map (fun r => joinComma ((exportRow includePasswords r).map escapeCsv))

/-! ## Cache lemmas -/

theorem cacheHas_eq_keys (c : Cache) (p : String) :
    cacheHas c p = (c.map Prod.fst).any (fun q => q = p) := by
  unfold cacheHas
  induction c with
  | nil => rfl
  | cons kv t ih => simp only [List.any_cons, List.map_cons, ih]

theorem keys_cacheSet (c : Cache) (p : String) (v : List SuffixEntry) :
    (cacheSet c p v).map Prod.fst =
      if cacheHas c p then c.map Prod.fst else c.map Prod.fst ++ [p] := by
  unfold cacheSet
  split
  · simp only [List.map_map]
    refine List.map_congr_left ?_
    intro kv _
    by_cases h : kv.1 = p <;> simp [h, Function.comp]
  · simp

theorem cacheHas_cacheSet_self (c : Cache) (p : String) (v : List SuffixEntry) :
    cacheHas (cacheSet c p v) p = true := by
  rw [cacheHas_eq_keys, keys_cacheSet]
  by_cases h : cacheHas c p = true
  · rw [if_pos h, ← cacheHas_eq_keys]; exact h
  · rw [if_neg h]; simp

theorem cacheHas_cacheSet_ne (c : Cache) (p q : String) (v : List SuffixEntry)
    (h : q ≠ p) : cacheHas (cacheSet c q v) p = cacheHas c p := by
  rw [cacheHas_eq_keys, keys_cacheSet, cacheHas_eq_keys c p]
  split
  · rfl
  · simp [h]

theorem cacheHas_cacheSet_of_has (c : Cache) (p q : String) (v : List SuffixEntry)
    (h : cacheHas c p = true) : cacheHas (cacheSet c q v) p = true := by
  by_cases hq : q = p
  · subst hq; exact cacheHas_cacheSet_self c q v
  · rw [cacheHas_cacheSet_ne c p q v hq]; exact h

theorem find?_eq_none_of_not_has (c : Cache) (p : String)
    (h : cacheHas c p = false) : c.find? (fun kv => kv.1 = p) = none := by
  rw [List.find?_eq_none]
  intro kv hkv
  have h2 : c.any (fun kv => decide (kv.1 = p)) = false := h
  have := List.any_eq_false.mp h2 kv hkv
  simpa using this

theorem cacheGet_cacheSet_self (c : Cache) (p : String) (v : List SuffixEntry)
    (h : cacheHas c p = false) : cacheGet (cacheSet c p v) p = v := by
  unfold cacheSet
  rw [if_neg (by rw [h]; exact Bool.false_ne_true)]
  unfold cacheGet
  rw [List.find?_append, find?_eq_none_of_not_has c p h]
  simp

theorem length_cacheSet_of_not_has (c : Cache) (p : String) (v : List SuffixEntry)
    (h : cacheHas c p = false) : (cacheSet c p v).length = c.length + 1 := by
  unfold cacheSet
  rw [if_neg (by rw [h]; exact Bool.false_ne_true)]
  simp

theorem not_mem_keys_of_not_has (c : Cache) (p : String)
    (h : cacheHas c p = false) : p ∉ c.map Prod.fst := by
  intro hmem
  rw [cacheHas_eq_keys] at h
  have : (c.map Prod.fst).any (fun q => q = p) = true := by
    rw [List.any_eq_true]
    exact ⟨p, hmem, by simp⟩
  rw [h] at this
  exact Bool.false_ne_true this

/-! ## Branch lemmas for `checkPassword` and `processEntry` -/

theorem checkPassword_hit (digest : String → String) (oracle : Oracle)
    (cache : Cache) (password : String)
    (h : cacheHas cache (strTake (digest password) hashPfxLength) = true) :
    checkPassword digest oracle cache password =
      ⟨.resolved (lookupCount (cacheGet cache (strTake (digest password) hashPfxLength))
          (strDrop (digest password) hashPfxLength)), cache, []⟩ := by
  unfold checkPassword
  rw [if_pos h]

theorem checkPassword_miss_failure (digest : String → String) (oracle : Oracle)
    (cache : Cache) (password : String) (msg : String)
    (h : cacheHas cache (strTake (digest password) hashPfxLength) = false)
    (ho : oracle (strTake (digest password) hashPfxLength) = .failure msg) :
    checkPassword digest oracle cache password =
      ⟨.rejected msg, cache, [strTake (digest password) hashPfxLength]⟩ := by
  unfold checkPassword
  rw [if_neg (by rw [h]; exact Bool.false_ne_true), ho]

theorem checkPassword_miss_success (digest : String → String) (oracle : Oracle)
    (cache : Cache) (password : String) (body : String)
    (h : cacheHas cache (strTake (digest password) hashPfxLength) = false)
    (ho : oracle (strTake (digest password) hashPfxLength) = .success body) :
    checkPassword digest oracle cache password =
      ⟨.resolved (lookupCount (parseResponse body) (strDrop (digest password) hashPfxLength)),
        cacheSet cache (strTake (digest password) hashPfxLength) (parseResponse body),
        [strTake (digest password) hashPfxLength]⟩ := by
  unfold checkPassword
  rw [if_neg (by rw [h]; exact Bool.false_ne_true), ho]

/-- Cache-hit iteration: no remote call, no delay, `cachedCount` bumped,
one record appended, cache untouched. -/
theorem processEntry_hit (digest : String → String) (oracle : Oracle)
    (s : BatchState) (e : PasswordEntry)
    (h : cacheHas s.cache (strTake (digest e.password) hashPfxLength) = true) :
    processEntry digest oracle s e =
      { s with
        cachedCount := s.cachedCount + 1
        results := s.results ++
          [⟨e.password,
            lookupCount (cacheGet s.cache (strTake (digest e.password) hashPfxLength))
              (strDrop (digest e.password) hashPfxLength), e.originalLineNumber⟩]
        pwnedCount := s.pwnedCount +
          (if jsGtZero (lookupCount (cacheGet s.cache (strTake (digest e.password) hashPfxLength))
              (strDrop (digest e.password) hashPfxLength)) then 1 else 0) } := by
  unfold processEntry
  rw [checkPassword_hit digest oracle s.cache e.password h]
  simp only [h, if_pos, List.map_nil, List.append_nil, if_true]

/-- Cache-miss iteration whose remote call fails: one remote-call event, no
delay, no counter change, sentinel record appended, cache untouched. -/
theorem processEntry_miss_failure (digest : String → String) (oracle : Oracle)
    (s : BatchState) (e : PasswordEntry) (msg : String)
    (h : cacheHas s.cache (strTake (digest e.password) hashPfxLength) = false)
    (ho : oracle (strTake (digest e.password) hashPfxLength) = .failure msg) :
    processEntry digest oracle s e =
      { s with
        results := s.results ++ [⟨e.password, some (-1), e.originalLineNumber⟩]
        events := s.events ++
          [BatchEvent.remoteCall (strTake (digest e.password) hashPfxLength)] } := by
  unfold processEntry
  rw [checkPassword_miss_failure digest oracle s.cache e.password msg h ho]
  simp

/-- Cache-miss iteration whose remote call succeeds: one remote-call event
followed by the rate-limit delay, `checkedCount` bumped, the parsed body
stored under the prefix, one record appended. -/
theorem processEntry_miss_success (digest : String → String) (oracle : Oracle)
    (s : BatchState) (e : PasswordEntry) (body : String)
    (h : cacheHas s.cache (strTake (digest e.password) hashPfxLength) = false)
    (ho : oracle (strTake (digest e.password) hashPfxLength) = .success body) :
    processEntry digest oracle s e =
      { s with
        cache := cacheSet s.cache (strTake (digest e.password) hashPfxLength)
          (parseResponse body)
        checkedCount := s.checkedCount + 1
        events := s.events ++
          [BatchEvent.remoteCall (strTake (digest e.password) hashPfxLength),
           BatchEvent.delayMs API_RATE_LIMIT_DELAY_MS]
        results := s.results ++
          [⟨e.password,
            lookupCount (parseResponse body) (strDrop (digest e.password) hashPfxLength),
            e.originalLineNumber⟩]
        pwnedCount := s.pwnedCount +
          (if jsGtZero (lookupCount (parseResponse body)
              (strDrop (digest e.password) hashPfxLength)) then 1 else 0) } := by
  unfold processEntry
  rw [checkPassword_miss_success digest oracle s.cache e.password body h ho]
  simp only [h, Bool.false_eq_true, if_false, List.map_cons, List.map_nil]
  simp [List.append_assoc]

theorem processEntry_results (digest : String → String) (oracle : Oracle)
    (s : BatchState) (e : PasswordEntry) :
    ∃ cnt, (processEntry digest oracle s e).results =
      s.results ++ [⟨e.password, cnt, e.originalLineNumber⟩] := by
  unfold processEntry
  rcases hres : (checkPassword digest oracle s.cache e.password).result with cnt | msg
  · refine ⟨cnt, ?_⟩
    simp only [hres]
    split <;> simp
  · exact ⟨some (-1), by simp only [hres]⟩

theorem processEntry_cache (digest : String → String) (oracle : Oracle)
    (s : BatchState) (e : PasswordEntry) :
    (processEntry digest oracle s e).cache =
      (checkPassword digest oracle s.cache e.password).cache := by
  unfold processEntry
  rcases hres : (checkPassword digest oracle s.cache e.password).result with cnt | msg
  · simp only [hres]
    split <;> simp
  · simp only [hres]

/-! ## Batch-level lemmas -/

theorem runBatch_results_map (digest : String → String) (oracle : Oracle)
    (entries : List PasswordEntry) (s : BatchState) :
    ((runBatch digest oracle s entries).results).map
        (fun r => (r.password, r.originalLineNumber)) =
      s.results.map (fun r => (r.password, r.originalLineNumber)) ++
        entries.map (fun e => (e.password, e.originalLineNumber)) := by
  induction entries generalizing s with
  | nil => simp [runBatch]
  | cons e rest ih =>
    have hstep := processEntry_results digest oracle s e
    rcases hstep with ⟨cnt, hres⟩
    show ((runBatch digest oracle (processEntry digest oracle s e) rest).results).map _ = _
    rw [ih (processEntry digest oracle s e), hres]
    simp

/-- The cache/counter coupling: as many cached prefixes as counted API
calls, and no prefix is stored twice. -/
def CacheCountInv (s : BatchState) : Prop :=
  s.cache.length = s.checkedCount ∧ (s.cache.map Prod.fst).Nodup

theorem cacheCountInv_processEntry (digest : String → String) (oracle : Oracle)
    (s : BatchState) (e : PasswordEntry) (h : CacheCountInv s) :
    CacheCountInv (processEntry digest oracle s e) := by
  rcases h with ⟨hlen, hnodup⟩
  by_cases hc : cacheHas s.cache (strTake (digest e.password) hashPfxLength) = true
  · rw [processEntry_hit digest oracle s e hc]
    exact ⟨hlen, hnodup⟩
  · rw [Bool.not_eq_true] at hc
    rcases ho : oracle (strTake (digest e.password) hashPfxLength) with body | msg
    · rw [processEntry_miss_success digest oracle s e body hc ho]
      refine ⟨?_, ?_⟩
      · rw [length_cacheSet_of_not_has _ _ _ hc, hlen]
      · rw [keys_cacheSet, hc]
        simp only [Bool.false_eq_true, if_false]
        simp [List.nodup_append, hnodup,
          not_mem_keys_of_not_has s.cache (strTake (digest e.password) hashPfxLength) hc]
    · rw [processEntry_miss_failure digest oracle s e msg hc ho]
      exact ⟨hlen, hnodup⟩

theorem cacheCountInv_runBatch (digest : String → String) (oracle : Oracle)
    (entries : List PasswordEntry) (s : BatchState) (h : CacheCountInv s) :
    CacheCountInv (runBatch digest oracle s entries) := by
  induction entries generalizing s with
  | nil => exact h
  | cons e rest ih =>
    exact ih (processEntry digest oracle s e)
      (cacheCountInv_processEntry digest oracle s e h)

/-- Number of remote queries for prefix `p` recorded in an event trace. -/
def remoteCallCount (p : String) (evs : List BatchEvent) : Nat :=
  (evs.filter (fun ev => ev = BatchEvent.remoteCall p)).length

/-- Run invariant behind the at-most-once-per-prefix guarantee: the remote
calls already made for `p`, plus one more if `p` is still uncached, never
exceed one. -/
def PrefixCallBound (p : String) (s : BatchState) : Prop :=
  remoteCallCount p s.events + (if cacheHas s.cache p then 0 else 1) ≤ 1

theorem prefixCallBound_processEntry (digest : String → String) (oracle : Oracle)
    (p : String) (body : String) (ho : oracle p = .success body)
    (s : BatchState) (e : PasswordEntry) (h : PrefixCallBound p s) :
    PrefixCallBound p (processEntry digest oracle s e) := by
  by_cases hc : cacheHas s.cache (strTake (digest e.password) hashPfxLength) = true
  · rw [PrefixCallBound, processEntry_hit digest oracle s e hc]
    exact h
  · rw [Bool.not_eq_true] at hc
    rcases hoq : oracle (strTake (digest e.password) hashPfxLength) with body2 | msg
    · rw [PrefixCallBound, processEntry_miss_success digest oracle s e body2 hc hoq]
      by_cases hq : strTake (digest e.password) hashPfxLength = p
      · rw [hq] at hc ⊢
        rw [cacheHas_cacheSet_self]
        have hcount : remoteCallCount p (s.events ++
            [BatchEvent.remoteCall p, BatchEvent.delayMs API_RATE_LIMIT_DELAY_MS]) =
            remoteCallCount p s.events + 1 := by
          simp [remoteCallCount, List.filter_append]
        rw [hcount]
        have := h
        rw [PrefixCallBound, hc] at this
        simpa using this
      · rw [cacheHas_cacheSet_ne s.cache p _ _ hq]
        have hcount : remoteCallCount p (s.events ++
            [BatchEvent.remoteCall (strTake (digest e.password) hashPfxLength),
             BatchEvent.delayMs API_RATE_LIMIT_DELAY_MS]) =
            remoteCallCount p s.events := by
          simp [remoteCallCount, List.filter_append, hq]
        rw [hcount]
        exact h
    · rw [PrefixCallBound, processEntry_miss_failure digest oracle s e msg hc hoq]
      have hq : strTake (digest e.password) hashPfxLength ≠ p := by
        intro heq
        rw [heq, ho] at hoq
        exact RemoteOutcome.noConfusion hoq
      have hcount : remoteCallCount p (s.events ++
          [BatchEvent.remoteCall (strTake (digest e.password) hashPfxLength)]) =
          remoteCallCount p s.events := by
        simp [remoteCallCount, List.filter_append, hq]
      rw [hcount]
      exact h

theorem prefixCallBound_runBatch (digest : String → String) (oracle : Oracle)
    (p : String) (body : String) (ho : oracle p = .success body)
    (entries : List PasswordEntry) (s : BatchState) (h : PrefixCallBound p s) :
    PrefixCallBound p (runBatch digest oracle s entries) := by
  induction entries generalizing s with
  | nil => exact h
  | cons e rest ih =>
    exact ih (processEntry digest oracle s e)
      (prefixCallBound_processEntry digest oracle p body ho s e h)

/-! ## Split and trim lemmas (for the response-parser claims) -/

theorem splitChar_of_not_mem (sep : Char) (l : List Char) (h : sep ∉ l) :
    splitChar sep l = [l] := by
  induction l with
  | nil => rfl
  | cons c t ih =>
    have hc : c ≠ sep := by intro hcs; exact h (hcs ▸ List.mem_cons_self c t)
    have ht : sep ∉ t := fun hm => h (List.mem_cons_of_mem c hm)
    rw [splitChar, if_neg hc, ih ht]
    rfl

theorem splitChar_append (sep : Char) (xs ys : List Char) (h : sep ∉ xs) :
    splitChar sep (xs ++ sep :: ys) = xs :: splitChar sep ys := by
  induction xs with
  | nil => simp [splitChar]
  | cons c t ih =>
    have hc : c ≠ sep := by intro hcs; exact h (hcs ▸ List.mem_cons_self c t)
    have ht : sep ∉ t := fun hm => h (List.mem_cons_of_mem c hm)
    rw [List.cons_append, splitChar, if_neg hc, ih ht]
    rfl

theorem splitCRLF_of_not_mem (l : List Char) (h : '\r' ∉ l) :
    splitCRLF l = [l] := by
  induction l with
  | nil => rfl
  | cons c t ih =>
    have hc : c ≠ '\r' := by intro hcs; exact h (hcs ▸ List.mem_cons_self c t)
    have ht : '\r' ∉ t := fun hm => h (List.mem_cons_of_mem c hm)
    cases t with
    | nil => rfl
    | cons d t2 =>
      rw [splitCRLF, ih ht]
      simp [hc]
      rfl

theorem splitCRLF_append (xs ys : List Char) (h : '\r' ∉ xs) :
    splitCRLF (xs ++ '\r' :: '\n' :: ys) = xs :: splitCRLF ys := by
  induction xs with
  | nil => simp [splitCRLF]
  | cons c t ih =>
    have hc : c ≠ '\r' := by intro hcs; exact h (hcs ▸ List.mem_cons_self c t)
    have ht : '\r' ∉ t := fun hm => h (List.mem_cons_of_mem c hm)
    cases t with
    | nil =>
      rw [List.cons_append, List.nil_append, splitCRLF]
      simp [hc]
      rfl
    | cons d t2 =>
      rw [List.cons_append, List.cons_append, splitCRLF, ← List.cons_append, ih ht]
      simp [hc]
      rfl

theorem mem_dropWhile_of_mem {p : Char → Bool} {x : Char} {l : List Char}
    (hx : x ∈ l) (hpx : p x = false) : x ∈ l.dropWhile p := by
  induction l with
  | nil => cases hx
  | cons c t ih =>
    rw [List.dropWhile]
    rcases List.mem_cons.mp hx with rfl | hxt
    · rw [hpx]
      exact List.mem_cons_self x t
    · cases hpc : p c
      · exact List.mem_cons_of_mem c hxt
      · exact ih hxt

theorem mem_jsTrimList {x : Char} {l : List Char} (hx : x ∈ l)
    (hws : isWs x = false) : x ∈ jsTrimList l := by
  unfold jsTrimList
  rw [List.mem_reverse]
  exact mem_dropWhile_of_mem (List.mem_reverse.mpr (mem_dropWhile_of_mem hx hws)) hws

theorem jsTrimList_all_ws (l : List Char) (h : ∀ x ∈ l, isWs x = true) :
    jsTrimList l = [] := by
  unfold jsTrimList
  rw [List.dropWhile_eq_nil_iff.mpr h]
  rfl

theorem parseLine_wellformed (s c : List Char) (hs : ':' ∉ s) (hc : ':' ∉ c) :
    parseLine (s ++ ':' :: c) = ⟨⟨jsTrimList s⟩, jsParseIntList c⟩ := by
  simp only [parseLine]
  rw [splitChar_append ':' s c hs, splitChar_of_not_mem ':' c hc]
  rfl

theorem jsTrimList_line_ne_nil (s c : List Char) :
    ((jsTrimList (s ++ ':' :: c)).isEmpty) = false := by
  have hmem : (':' : Char) ∈ s ++ ':' :: c := by simp
  have h := mem_jsTrimList hmem (by decide)
  cases htl : jsTrimList (s ++ ':' :: c) with
  | nil => rw [htl] at h; cases h
  | cons a t => rfl

theorem parseResponse_cons_line (s c rest : List Char)
    (hrs : '\r' ∉ s) (hrc : '\r' ∉ c) :
    parseResponse ⟨(s ++ ':' :: c) ++ '\r' :: '\n' :: rest⟩ =
      parseLine (s ++ ':' :: c) :: parseResponse ⟨rest⟩ := by
  have hline : '\r' ∉ s ++ ':' :: c := by
    intro hm
    rcases List.mem_append.mp hm with h1 | h2
    · exact hrs h1
    · rcases List.mem_cons.mp h2 with h3 | h4
      · exact absurd h3 (by decide)
      · exact hrc h4
  unfold parseResponse
  show ((splitCRLF ((s ++ ':' :: c) ++ '\r' :: '\n' :: rest)).filter _).map _ = _
  rw [splitCRLF_append _ _ hline]
  rw [List.filter_cons]
  rw [jsTrimList_line_ne_nil s c]
  simp only [Bool.not_false, if_true, List.map_cons]

theorem parseResponse_blank_line (ws rest : List Char)
    (hws : ∀ x ∈ ws, isWs x = true) (hr : '\r' ∉ ws) :
    parseResponse ⟨ws ++ '\r' :: '\n' :: rest⟩ = parseResponse ⟨rest⟩ := by
  unfold parseResponse
  show ((splitCRLF (ws ++ '\r' :: '\n' :: rest)).filter _).map _ = _
  rw [splitCRLF_append _ _ hr]
  rw [List.filter_cons]
  rw [jsTrimList_all_ws ws hws]
  simp only [List.isEmpty_nil, Bool.not_true, Bool.false_eq_true, if_false]

theorem parseResponse_last_line (s c : List Char) (hrs : '\r' ∉ s) (hrc : '\r' ∉ c) :
    parseResponse ⟨s ++ ':' :: c⟩ = [parseLine (s ++ ':' :: c)] := by
  have hline : '\r' ∉ s ++ ':' :: c := by
    intro hm
    rcases List.mem_append.mp hm with h1 | h2
    · exact hrs h1
    · rcases List.mem_cons.mp h2 with h3 | h4
      · exact absurd h3 (by decide)
      · exact hrc h4
  unfold parseResponse
  show ((splitCRLF (s ++ ':' :: c)).filter _).map _ = _
  rw [splitCRLF_of_not_mem _ hline]
  rw [List.filter_cons]
  rw [jsTrimList_line_ne_nil s c]
  simp only [Bool.not_false, if_true, List.filter_nil, List.map_cons, List.map_nil]

theorem occursIn_length_le {n h : List Char} (ho : occursIn n h) :
    n.length ≤ h.length := by
  rcases ho with ⟨l, r, rfl⟩
  simp
  omega

/-! ## Concrete fixtures for witnesses and counterexamples -/

/-- A fixed 40-hex-char digest: prefix `00000`, suffix 35 `A`s. -/
def hashA : String := ("00000AAAAAAAAAAAAAAAAAAAAAAAAAAAAAAAAAAA")

/-- A fixed 40-hex-char digest: prefix `00000`, suffix 35 `F`s. -/
def hashF : String := ("00000FFFFFFFFFFFFFFFFFFFFFFFFFFFFFFFFFFF")

/-- Constant digest function used to construct synthetic shared prefixes. -/
def digestA : String → String := fun _ => hashA

/-- Constant digest function with the `F`-suffixed digest. -/
def digestF : String → String := fun _ => hashF

/-- Remote service that always answers with an empty (padding-only) body. -/
def oracleEmpty : Oracle := fun _ => .success ("")

/-- Remote service that always answers with a body that has no `SUFFIX:COUNT`
shape at all. -/
def oracleGarbage : Oracle := fun _ => .success ("garbage")

/-- Remote service whose answer lists the `F`-suffix in lowercase. -/
def oracleLower : Oracle :=
  fun _ => .success ("fffffffffffffffffffffffffffffffffff:7")

/-- Remote service that always fails at the transport level. -/
def oracleDown : Oracle := fun _ => .failure ("socket hang up")

/-! ## The claims -/

/-- C1: for every run and every prefix whose remote fetch succeeds, the
remote service is queried at most once for that prefix across the whole
batch — in particular across any two entries whose digests share that
5-character prefix, regardless of their order; the second lookup of an
already-fetched prefix is answered from the prefix cache. -/
theorem C1_remote_query_at_most_once (digest : String → String)
    (oracle : Oracle) (entries : List PasswordEntry) (p body : String)
    (ho : oracle p = .success body) :
    remoteCallCount p (runBatch digest oracle initialState entries).events ≤ 1 := by
  have h0 : PrefixCallBound p initialState := by
    rw [PrefixCallBound]
    simp [remoteCallCount, initialState, cacheHas]
  have h := prefixCallBound_runBatch digest oracle p body ho entries initialState h0
  rw [PrefixCallBound] at h
  exact le_trans (Nat.le_add_right _ _) h

/-- C1 witness: two entries whose (synthetic) digests share the prefix
`00000`, against an always-successful remote service. -/
theorem C1_witness :
    oracleEmpty ("00000") = .success ("") ∧
    remoteCallCount ("00000")
        (runBatch digestA oracleEmpty initialState
          [⟨("aaa"), 1⟩, ⟨("bbb"), 2⟩]).events ≤ 1 :=
  ⟨rfl, C1_remote_query_at_most_once digestA oracleEmpty
    [⟨("aaa"), 1⟩, ⟨("bbb"), 2⟩] ("00000") ("") rfl⟩

/-- C2: the outbound request is a function of the first 5 characters of the
digest alone — two passwords whose digests share that prefix generate
identical requests — and for a 40-character digest the 35-character suffix
does not occur in any string of the request (hostname, path, method, header
names or values, body). -/
theorem C2_request_function_of_digest_head :
    (∀ digest : String → String, ∀ p1 p2 : String,
        strTake (digest p1) hashPfxLength = strTake (digest p2) hashPfxLength →
        requestFor digest p1 = requestFor digest p2) ∧
    (∀ digest : String → String, ∀ pw : String, (digest pw).length = 40 →
        ∀ f ∈ requestStrings (requestFor digest pw),
          ¬ occursIn (strDrop (digest pw) hashPfxLength).data f.data) := by
  constructor
  · intro digest p1 p2 h
    unfold requestFor
    rw [h]
  · intro digest pw hlen f hf hocc
    have hdata : (digest pw).data.length = 40 := hlen
    have hsuf : (strDrop (digest pw) hashPfxLength).data.length = 35 := by
      simp [strDrop, hashPfxLength, hdata]
    have hle := occursIn_length_le hocc
    rw [hsuf] at hle
    simp only [requestStrings, requestFor, buildRequest, List.flatMap_cons,
      List.flatMap_nil, List.append_nil, List.cons_append, List.nil_append,
      List.mem_cons, List.not_mem_nil, or_false] at hf
    rcases hf with rfl | rfl | rfl | rfl | rfl | rfl | rfl | rfl
    · exact absurd hle (by decide)
    · rw [String.data_append] at hle
      simp [strTake, hashPfxLength, hdata] at hle
    · exact absurd hle (by decide)
    · exact absurd hle (by decide)
    · exact absurd hle (by decide)
    · exact absurd hle (by decide)
    · exact absurd hle (by decide)
    · exact absurd hle (by decide)

/-- C2 witness: concrete instantiation of both halves at the synthetic
digest `hashA`. -/
theorem C2_witness :
    strTake (digestA ("p1")) hashPfxLength = strTake (digestA ("p2")) hashPfxLength ∧
    requestFor digestA ("p1") = requestFor digestA ("p2") ∧
    (digestA ("p1")).length = 40 ∧
    ¬ occursIn (strDrop (digestA ("p1")) hashPfxLength).data
        (requestFor digestA ("p1")).path.data :=
  ⟨rfl, C2_request_function_of_digest_head.1 digestA ("p1") ("p2") rfl, by decide,
    C2_request_function_of_digest_head.2 digestA ("p1") (by decide)
      (requestFor digestA ("p1")).path (by simp [requestStrings])⟩

/-- C3 (amended): a transport-level failure rejects the lookup with the
error message (surfacing as the failure sentinel for the requesting entry),
leaves the cache without an entry for the prefix, and a later lookup with
the same prefix — under any oracle — issues a fresh remote call.  (The
original claim also covered malformed bodies; see the counterexample.) -/
theorem C3_transport_failure_no_poison (digest : String → String)
    (oracle : Oracle) (cache : Cache) (pw msg : String)
    (hc : cacheHas cache (strTake (digest pw) hashPfxLength) = false)
    (ho : oracle (strTake (digest pw) hashPfxLength) = .failure msg) :
    (checkPassword digest oracle cache pw).result = .rejected msg ∧
    (checkPassword digest oracle cache pw).cache = cache ∧
    cacheHas (checkPassword digest oracle cache pw).cache
        (strTake (digest pw) hashPfxLength) = false ∧
    (∀ oracle2 : Oracle, ∀ pw2 : String,
      strTake (digest pw2) hashPfxLength = strTake (digest pw) hashPfxLength →
      (checkPassword digest oracle2
          (checkPassword digest oracle cache pw).cache pw2).remoteCalls =
        [strTake (digest pw2) hashPfxLength]) := by
  rw [checkPassword_miss_failure digest oracle cache pw msg hc ho]
  refine ⟨rfl, rfl, hc, ?_⟩
  intro oracle2 pw2 hp
  have hc2 : cacheHas cache (strTake (digest pw2) hashPfxLength) = false := by
    rw [hp]; exact hc
  rcases ho2 : oracle2 (strTake (digest pw2) hashPfxLength) with body | msg2
  · rw [checkPassword_miss_success digest oracle2 cache pw2 body hc2 ho2]
  · rw [checkPassword_miss_failure digest oracle2 cache pw2 msg2 hc2 ho2]

/-- C3 witness: a concrete transport failure rejects with the message and
does not populate the cache. -/
theorem C3_witness :
    cacheHas ([] : Cache) (strTake (digestA ("pw")) hashPfxLength) = false ∧
    (checkPassword digestA oracleDown [] ("pw")).result =
      .rejected ("socket hang up") :=
  ⟨by decide,
    (C3_transport_failure_no_poison digestA oracleDown [] ("pw")
      ("socket hang up") (by decide) rfl).1⟩

/-- C3 counterexample: a malformed (no `SUFFIX:COUNT` shape) body is NOT
treated as a lookup failure — the lookup resolves with count 0 and the
prefix IS cached, contradicting the claim for the malformed-body case. -/
theorem C3_counterexample :
    (checkPassword digestA oracleGarbage [] ("pw")).result = .resolved (some 0) ∧
    cacheHas (checkPassword digestA oracleGarbage [] ("pw")).cache ("00000") = true := by
  decide

/-- C4: an export row is `(originalLineNumber, pwned_count[, password])`:
`pwned_count` is empty for the failure sentinel and the numeric count
otherwise (0 for safe); the password column exists exactly when
`includePasswords`, and is populated exactly for `count > 0` — safe and
error records get an empty password field even when requested. -/
theorem C4_export_row_shape (includePasswords : Bool) (r : ResultRecord)
    (c : Int) (hc : r.count = some c) (hdom : c = -1 ∨ 0 ≤ c) :
    (exportRow includePasswords r).length = (if includePasswords then 3 else 2) ∧
    (exportRow includePasswords r)[0]? = some (toString r.originalLineNumber) ∧
    (exportRow includePasswords r)[1]? =
      some (if c = -1 then ("") else toString c) ∧
    (includePasswords = true →
      (exportRow includePasswords r)[2]? =
        some (if 0 < c then r.password else (""))) := by
  have h1 : (if jsGeZero (some c) then jsNumToString (some c) else ("")) =
      (if c = -1 then ("") else toString c) := by
    rcases hdom with rfl | hge
    · simp [jsGeZero]
    · have hne : ¬(c = -1) := by omega
      simp [jsGeZero, hge, jsNumToString, hne]
  have h2 : (if jsGtZero (some c) then
        (if r.password = ("") then ("") else r.password) else ("")) =
      (if 0 < c then r.password else ("")) := by
    by_cases hp : 0 < c
    · by_cases hpw : r.password = ("") <;> simp [jsGtZero, hp, hpw]
    · simp [jsGtZero, hp]
  unfold exportRow
  rw [hc, h1, h2]
  cases includePasswords <;> simp

/-- C4 witness: a breached record with count 3 under `includePasswords`. -/
theorem C4_witness :
    (⟨("pw"), some 3, 7⟩ : ResultRecord).count = some 3 ∧
    ((3 : Int) = -1 ∨ (0 : Int) ≤ 3) ∧
    (exportRow true ⟨("pw"), some 3, 7⟩)[1]? =
      some (if (3 : Int) = -1 then ("") else toString (3 : Int)) :=
  ⟨rfl, Or.inr (by decide),
    (C4_export_row_shape true ⟨("pw"), some 3, 7⟩ 3 rfl (Or.inr (by decide))).2.2.1⟩

/-- C5: the batch produces exactly one result record per entry, in input
order, carrying each entry's password and original line number — under any
oracle, including failing ones, so one entry's lookup failure never prevents
later entries from being processed. -/
theorem C5_one_record_per_entry_in_order (digest : String → String)
    (oracle : Oracle) (entries : List PasswordEntry) :
    ((runBatch digest oracle initialState entries).results).map
        (fun r => (r.password, r.originalLineNumber)) =
      entries.map (fun e => (e.password, e.originalLineNumber)) := by
  have h := runBatch_results_map digest oracle entries initialState
  simpa [initialState] using h

/-- C6: when the fetched suffix set for a password's prefix contains no
entry equal to the digest's suffix, the lookup resolves to count 0 (safe),
not an error, after one remote call; repeating the same lookup is then
served from the cache with no remote call, again resolving 0. -/
theorem C6_absent_suffix_is_safe_and_cacheable (digest : String → String)
    (oracle : Oracle) (cache : Cache) (pw body : String)
    (hc : cacheHas cache (strTake (digest pw) hashPfxLength) = false)
    (ho : oracle (strTake (digest pw) hashPfxLength) = .success body)
    (habs : ∀ en ∈ parseResponse body, en.sfx ≠ strDrop (digest pw) hashPfxLength) :
    (checkPassword digest oracle cache pw).result = .resolved (some 0) ∧
    (checkPassword digest oracle cache pw).remoteCalls =
      [strTake (digest pw) hashPfxLength] ∧
    (checkPassword digest oracle
        (checkPassword digest oracle cache pw).cache pw).result =
      .resolved (some 0) ∧
    (checkPassword digest oracle
        (checkPassword digest oracle cache pw).cache pw).remoteCalls = [] := by
  have hfind : (parseResponse body).find?
      (fun e => e.sfx = strDrop (digest pw) hashPfxLength) = none := by
    rw [List.find?_eq_none]
    intro en hen
    simpa using habs en hen
  have hlc : lookupCount (parseResponse body) (strDrop (digest pw) hashPfxLength) =
      some 0 := by
    rw [lookupCount, hfind]
  have h1 := checkPassword_miss_success digest oracle cache pw body hc ho
  have hhas : cacheHas
      (cacheSet cache (strTake (digest pw) hashPfxLength) (parseResponse body))
      (strTake (digest pw) hashPfxLength) = true := cacheHas_cacheSet_self _ _ _
  have h2 := checkPassword_hit digest oracle
    (cacheSet cache (strTake (digest pw) hashPfxLength) (parseResponse body)) pw hhas
  have hget := cacheGet_cacheSet_self cache (strTake (digest pw) hashPfxLength)
    (parseResponse body) hc
  simp only [h1, h2, hget, hlc]
  exact ⟨trivial, trivial, trivial, trivial⟩

/-- C6 witness: an empty (padding-only) body has no matching suffix, so the
lookup resolves 0 rather than failing. -/
theorem C6_witness :
    cacheHas ([] : Cache) (strTake (digestA ("aaa")) hashPfxLength) = false ∧
    (checkPassword digestA oracleEmpty [] ("aaa")).result = .resolved (some 0) :=
  ⟨by decide,
    (C6_absent_suffix_is_safe_and_cacheable digestA oracleEmpty [] ("aaa") ("")
      (by decide) rfl (by decide)).1⟩

/-- C7 (amended): the parser splits the body on `\r\n`, discards blank
(whitespace-only padding) lines, and parses each remaining `SUFFIX:COUNT`
line into the suffix *trimmed but with its letter case preserved* (not
uppercased — see the counterexample) and the base-10 `parseInt` of the
count field. -/
theorem C7_parser_splits_trims_preserves_case :
    (∀ s c rest : List Char, '\r' ∉ s → ':' ∉ s → '\r' ∉ c → ':' ∉ c →
      parseResponse ⟨(s ++ ':' :: c) ++ '\r' :: '\n' :: rest⟩ =
        ⟨⟨jsTrimList s⟩, jsParseIntList c⟩ :: parseResponse ⟨rest⟩) ∧
    (∀ ws rest : List Char, (∀ x ∈ ws, isWs x = true) → '\r' ∉ ws →
      parseResponse ⟨ws ++ '\r' :: '\n' :: rest⟩ = parseResponse ⟨rest⟩) ∧
    (∀ s c : List Char, '\r' ∉ s → ':' ∉ s → '\r' ∉ c → ':' ∉ c →
      parseResponse ⟨s ++ ':' :: c⟩ = [⟨⟨jsTrimList s⟩, jsParseIntList c⟩]) := by
  refine ⟨fun s c rest hrs hcs hrc hcc => ?_,
    fun ws rest h1 h2 => parseResponse_blank_line ws rest h1 h2,
    fun s c hrs hcs hrc hcc => ?_⟩
  · rw [parseResponse_cons_line s c rest hrs hrc, parseLine_wellformed s c hcs hcc]
  · rw [parseResponse_last_line s c hrs hrc, parseLine_wellformed s c hcs hcc]

/-- C7 witness: one well-formed line `ab:3` parses to the trimmed suffix
and count 3. -/
theorem C7_witness :
    ((':' : Char) ∉ (['a', 'b'] : List Char)) ∧
    parseResponse ⟨['a', 'b'] ++ ':' :: ['3']⟩ =
      [⟨⟨jsTrimList ['a', 'b']⟩, jsParseIntList ['3']⟩] :=
  ⟨by decide, C7_parser_splits_trims_preserves_case.2.2 ['a', 'b'] ['3']
    (by decide) (by decide) (by decide) (by decide)⟩

/-- C7 counterexample: the claim says suffixes are normalized to uppercase
so a lowercase response still matches.  In the code the parsed suffix keeps
its case, and a lowercase body does not match the uppercase digest suffix:
the lookup resolves 0 instead of the listed count 7. -/
theorem C7_counterexample :
    (parseResponse ("fffffffffffffffffffffffffffffffffff:7")).map SuffixEntry.sfx =
      [("fffffffffffffffffffffffffffffffffff")] ∧
    (("fffffffffffffffffffffffffffffffffff") : String) ≠
      ("FFFFFFFFFFFFFFFFFFFFFFFFFFFFFFFFFFF") ∧
    (checkPassword digestF oracleLower [] ("pw")).result = .resolved (some 0) := by
  decide

/-- C8 (amended): per batch iteration, the event trace gains the remote
call exactly when the prefix was absent from the cache before the lookup
(hit-ness is read off the pre-lookup cache), and gains the fixed
100 ms delay — placed after the remote call and before anything of the next
entry — exactly when the prefix was absent AND the lookup resolved; a
rejected (failed) lookup incurs no delay, and a cache hit incurs neither.
(The original claim demanded the delay for every cache miss, including
failed ones — see the counterexample.) -/
theorem C8_delay_iff_new_successful_query (digest : String → String)
    (oracle : Oracle) (s : BatchState) (e : PasswordEntry) :
    (processEntry digest oracle s e).events =
      (s.events ++
        (if cacheHas s.cache (strTake (digest e.password) hashPfxLength) then []
         else [BatchEvent.remoteCall (strTake (digest e.password) hashPfxLength)])) ++
        (if (!cacheHas s.cache (strTake (digest e.password) hashPfxLength)) &&
            (checkPassword digest oracle s.cache e.password).result.isResolved
         then [BatchEvent.delayMs API_RATE_LIMIT_DELAY_MS] else []) := by
  by_cases hc : cacheHas s.cache (strTake (digest e.password) hashPfxLength) = true
  · rw [processEntry_hit digest oracle s e hc, hc]
    simp
  · rw [Bool.not_eq_true] at hc
    rcases ho : oracle (strTake (digest e.password) hashPfxLength) with body | msg
    · rw [processEntry_miss_success digest oracle s e body hc ho, hc,
        checkPassword_miss_success digest oracle s.cache e.password body hc ho]
      simp [LookupResult.isResolved]
    · rw [processEntry_miss_failure digest oracle s e msg hc ho, hc,
        checkPassword_miss_failure digest oracle s.cache e.password msg hc ho]
      simp [LookupResult.isResolved]

/-- C8 counterexample: a cache-miss entry whose remote call fails triggers
a remote query but NO rate-limit delay, contradicting the claim that the
delay is applied exactly when the prefix was absent from the cache. -/
theorem C8_counterexample :
    cacheHas initialState.cache (strTake (digestA ("aaa")) hashPfxLength) = false ∧
    (processEntry digestA oracleDown initialState ⟨("aaa"), 1⟩).events =
      [BatchEvent.remoteCall ("00000")] ∧
    BatchEvent.delayMs API_RATE_LIMIT_DELAY_MS ∉
      (processEntry digestA oracleDown initialState ⟨("aaa"), 1⟩).events := by
  decide

theorem doubleQuotes_eq_flatMap (l : List Char) :
    doubleQuotes l = l.flatMap (fun ch => if ch = '"' then ['"', '"'] else [ch]) := by
  induction l with
  | nil => rfl
  | cons c t ih =>
    by_cases hc : c = '"' <;> simp [doubleQuotes, hc, ih]

/-- C9: every exported field containing a comma, double quote, or line
break is emitted wrapped in double quotes with each internal double quote
doubled, and every other field is emitted unchanged; in particular
`a,"b"` is emitted as `"a,""b"""`. -/
theorem C9_escape_csv_rules :
    (∀ s : String, escapeCsv s =
      if s.data.any isCsvSpecial then
        ⟨'"' :: ((s.data.flatMap (fun ch => if ch = '"' then ['"', '"'] else [ch]))
          ++ ['"'])⟩
      else s) ∧
    escapeCsv ("a,\"b\"") = ("\"a,\"\"b\"\"\"") := by
  constructor
  · intro s
    unfold escapeCsv
    by_cases h : s.data.any isCsvSpecial = true
    · rw [if_pos h, if_pos h, ← doubleQuotes_eq_flatMap]
      rfl
    · rw [if_neg h, if_neg h]
  · decide

/-- C10: at every point of a batch run started from the initial state, the
number of prefixes stored in the cache equals the `checkedCount` counter
reported as "API calls made" (successful new fetches add one to each, cache
hits and failed lookups change neither), and no prefix is stored twice. -/
theorem C10_cache_size_equals_api_calls (digest : String → String)
    (oracle : Oracle) (entries : List PasswordEntry) (i : Nat) :
    ((runBatch digest oracle initialState (entries.take i)).cache).length =
        (runBatch digest oracle initialState (entries.take i)).checkedCount ∧
      (((runBatch digest oracle initialState (entries.take i)).cache).map
        Prod.fst).Nodup := by
  exact cacheCountInv_runBatch digest oracle (entries.take i) initialState
    ⟨rfl, List.nodup_nil⟩

end PwnCheck
